import Mathlib

set_option maxRecDepth 100000

/-!
Shallow embedding of the receipt-points processor
(`internal/receipt/processor.go`, Go 1.18) in Lean 4.

Strings are modelled as Lean `String`; byte lengths (Go `len` of a UTF-8
string) are computed by summing the UTF-8 sizes of the characters.

Prices are `float64` in Go; here they are modelled bit-faithfully for
plain decimal numerals: `parsePrice` embeds `strconv.ParseFloat`'s
decimal path — exact decimal reading followed by round-to-nearest-even
to IEEE-754 binary64 (`roundPQ`), with overflow producing `±Inf`
together with `ErrRange` and underflow producing a subnormal or zero
with **no** error (Go's `decimal.floatBits` flags only overflow).  The
description-length rule multiplies by the float64 constant nearest 0.2
(`point2Float`) with correctly rounded IEEE multiplication (`floatMul`),
takes `math.Ceil` (exact on floats, `floatCeilInt`) and converts to
`int64`; a conversion whose value is out of int64 range or infinite is
implementation-defined in Go and is modelled as amd64's integer
indefinite `-2^63` (`int64OfCeil`); arm64 saturates instead.  The
points accumulator is `int64`, so the final sum is reduced by `wrap64`.
Not modelled (documented idealisations): the hex-float, underscore,
`inf`/`nan` spellings that `ParseFloat` also accepts (the model treats
them as syntax errors — the predicate `plainDecimalForm` delimits the
faithful domain), and NaN propagation (unreachable here except via
those spellings).

`decimalValue`/`Dec` give the *exact* decimal value of a numeral with
no float64 behavior: this is the specification's idealized reading of
"price parsed as a decimal", kept separate so that statements can
compare the idealized reading against the float64-faithful code.
-/

namespace ReceiptProcessor

/-- Embeds the Go struct `Item`: a product line of the receipt. -/
structure Item where
  ShortDescription : String
  Price : String
deriving Repr, DecidableEq

/-- Embeds the Go struct `Receipt`: the full receipt structure. -/
structure Receipt where
  ID : String := ""
  Retailer : String
  PurchaseDate : String
  PurchaseTime : String
  Items : List Item
  Total : String
deriving Repr, DecidableEq

/-- Numeric value of a digit string (most significant digit first). -/
def digitsVal (ds : List Char) : Nat :=
  ds.foldl (fun a c => 10 * a + (c.toNat - 48)) 0

/-- Split an optional leading sign, returning (isNegative, rest). -/
def splitSign : List Char → Bool × List Char
  | '-' :: cs => (true, cs)
  | '+' :: cs => (false, cs)
  | cs => (false, cs)

/-- Longest prefix of ASCII digits together with the remainder. -/
def takeDigits (cs : List Char) : List Char × List Char :=
  (cs.takeWhile Char.isDigit, cs.dropWhile Char.isDigit)

/-- Parse the optional decimal exponent part (`e`/`E`, optional sign,
digits) that must consume the whole remainder; `[]` means exponent 0. -/
def parseExp : List Char → Option Int
  | [] => some 0
  | c :: cs =>
    if c = 'e' ∨ c = 'E' then
      let (neg, cs1) := splitSign cs
      let (ds, rest) := takeDigits cs1
      if ds ≠ [] ∧ rest = [] then
        some (if neg then -(digitsVal ds : Int) else (digitsVal ds : Int))
      else none
    else none

/-- An exactly-represented decimal number: the value is
`num * 10 ^ exp`. -/
structure Dec where
  num : Int
  exp : Int
deriving Repr, DecidableEq

/-- The rational value denoted by a `Dec`. -/
def Dec.toRat (d : Dec) : ℚ :=
  (d.num : ℚ) * (10 : ℚ) ^ d.exp

/-- The exact decimal value of a plain decimal numeral (optional sign,
digits with at most one dot, optional decimal exponent) — the
specification's idealized reading of "the total/price parsed as a
decimal", with no float64 rounding or range behavior.  The code's
actual behavior is `parsePrice` below. -/
def decimalValue (price : String) : Option Dec :=
  let (neg, cs) := splitSign price.toList
  let (ip, cs1) := takeDigits cs
  let (fp, cs2) :=
    match cs1 with
    | '.' :: t => takeDigits t
    | _ => ([], cs1)
  if ip = [] ∧ fp = [] then none
  else
    match parseExp cs2 with
    | none => none
    | some e =>
      let m : Int := (digitsVal (ip ++ fp) : Int)
      some { num := if neg then -m else m, exp := e - fp.length }

/-- An IEEE-754 binary64 value as Go produces and consumes it here:
`finite s m k` denotes `±m * 2^k` (`m = 0` gives a signed zero; the
representation is not required to be normalised), `inf s` denotes
`±Inf`.  NaN does not arise in the modelled paths. -/
inductive GoFloat where
  | finite : Bool → Nat → Int → GoFloat
  | inf : Bool → GoFloat
deriving Repr, DecidableEq

/-- Whether a float is finite (not `±Inf`). -/
def GoFloat.isFinite : GoFloat → Bool
  | .finite _ _ _ => true
  | .inf _ => false

/-- The rational value of a finite float (`±Inf` is mapped to 0 and is
always guarded by `isFinite` in statements). -/
def GoFloat.toRat : GoFloat → ℚ
  | .finite s m k => (if s then -(m : ℚ) else (m : ℚ)) * (2 : ℚ) ^ k
  | .inf _ => 0

/-- Number of binary digits of `n`, with explicit recursion fuel
(callers pass a fuel that exceeds the bit length). -/
def bitLenAux : Nat → Nat → Nat
  | 0, _ => 0
  | f + 1, n => if n = 0 then 0 else bitLenAux f (n / 2) + 1

/-- Round-to-nearest-even integer division: the integer nearest
`a / b`, ties to the even quotient. -/
def rtneDiv (a b : Nat) : Nat :=
  let q := a / b
  let r := a % b
  if 2 * r > b ∨ (2 * r = b ∧ q % 2 = 1) then q + 1 else q

/-- Round the positive rational `P / Q` to the nearest binary64, IEEE
round-to-nearest-even, with sign attached afterwards: returns the float
and Go's `ErrRange` flag, which is set exactly on overflow to `±Inf`
(underflow to a subnormal or to zero carries no error, as in Go's
`decimal.floatBits`). -/
def roundPQ (fuel : Nat) (sign : Bool) (P Q : Nat) : GoFloat × Bool :=
  if P = 0 then (.finite sign 0 0, false)
  else
    let bp := bitLenAux fuel P
    let bq := bitLenAux fuel Q
    let e : Int := if Q * 2 ^ bp ≤ P * 2 ^ bq then bp - bq else bp - bq - 1
    if 1024 ≤ e then (.inf sign, true)
    else if -1022 ≤ e then
      let t : Int := 52 - e
      let M := rtneDiv (P * 2 ^ t.toNat) (Q * 2 ^ (-t).toNat)
      if M = 2 ^ 53 then
        if e + 1 ≤ 1023 then (.finite sign (2 ^ 52) (e - 51), false)
        else (.inf sign, true)
      else (.finite sign M (e - 52), false)
    else
      (.finite sign (rtneDiv (P * 2 ^ 1074) Q) (-1074), false)

/-- Embeds Go `parsePrice` (a wrapper around `strconv.ParseFloat`) on
plain decimal numerals: `none` is a syntax error (Go then returns the
zero value); `some (f, rerr)` is the parsed binary64 value `f` together
with the `ErrRange` flag `rerr`.  The early exits for decimal exponents
beyond ±(310/330) mirror Go's `d.dp` shortcuts and agree with full
rounding.  Hex floats, underscores and `inf`/`nan` spellings are not
modelled (see the header). -/
def parsePrice (price : String) : Option (GoFloat × Bool) :=
  let (neg, cs) := splitSign price.toList
  let (ip, cs1) := takeDigits cs
  let (fp, cs2) :=
    match cs1 with
    | '.' :: t => takeDigits t
    | _ => ([], cs1)
  if ip = [] ∧ fp = [] then none
  else
    match parseExp cs2 with
    | none => none
    | some e10 =>
      let N := digitsVal (ip ++ fp)
      let digits := (ip ++ fp).length
      let E : Int := e10 - fp.length
      if N = 0 then some (.finite neg 0 0, false)
      else if 310 < E then some (.inf neg, true)
      else if (digits : Int) + E < -330 then some (.finite neg 0 0, false)
      else
        let fuel := 4 * digits + 2800
        if 0 ≤ E then some (roundPQ fuel neg (N * 10 ^ E.toNat) 1)
        else some (roundPQ fuel neg N (10 ^ (-E).toNat))

/-- The binary64 value nearest 0.2 — the constant the Go source
multiplies prices by (the literal `0.2` is rounded by the compiler):
`3602879701896397 * 2^-54`. -/
def point2Float : GoFloat := .finite false 3602879701896397 (-54)

/-- IEEE binary64 multiplication, correctly rounded: the exact dyadic
product is re-rounded by `roundPQ`.  (`inf * zero` would be NaN; it is
mapped to `inf` and is unreachable in the modelled code, where the
second factor is always the nonzero constant `point2Float`.) -/
def floatMul (a b : GoFloat) : GoFloat :=
  match a, b with
  | .finite s1 m1 k1, .finite s2 m2 k2 =>
    let s := s1 != s2
    if m1 * m2 = 0 then .finite s 0 0
    else if 0 ≤ k1 + k2 then
      (roundPQ 2400 s (m1 * m2 * 2 ^ (k1 + k2).toNat) 1).1
    else
      (roundPQ 2400 s (m1 * m2) (2 ^ (-(k1 + k2)).toNat)).1
  | .inf s1, .inf s2 => .inf (s1 != s2)
  | .inf s1, .finite s2 _ _ => .inf (s1 != s2)
  | .finite s1 _ _, .inf s2 => .inf (s1 != s2)

/-- `⌈a / d⌉` over the integers, for a positive divisor `d` (Lean's
integer division rounds toward negative infinity for positive divisors,
so the ceiling is the negated floor division of the negated numerator);
`ceilDiv_eq_ceil` below relates it to the rational ceiling. -/
def ceilDiv (a : Int) (d : Nat) : Int :=
  -((-a) / (d : Int))

/-- Embeds `math.Ceil` followed by reading the result as an integer:
the ceiling of a finite binary64 is exactly representable, so this is
the exact integer ceiling of the value; `±Inf` has none. -/
def floatCeilInt : GoFloat → Option Int
  | .finite s m k =>
    if 0 ≤ k then some (if s then -((m * 2 ^ k.toNat : Nat) : Int) else ((m * 2 ^ k.toNat : Nat) : Int))
    else if s then some (-((m / 2 ^ (-k).toNat : Nat) : Int))
    else some (ceilDiv (m : Int) (2 ^ (-k).toNat))
  | .inf _ => none

/-- Embeds Go's `int64(...)` conversion of the `math.Ceil` result: a
value inside int64 range converts to itself; an out-of-range or
infinite value is implementation-defined in Go and modelled as amd64's
integer indefinite `-2^63` (arm64 saturates instead). -/
def int64OfCeil : Option Int → Int
  | some c => if -(2 ^ 63) ≤ c ∧ c < 2 ^ 63 then c else -(2 ^ 63)
  | none => -(2 ^ 63)

/-- Whether a finite binary64 `±m * 2^k` is an integer multiple of 1/4
— this is exactly `math.Mod(price, 0.25) == 0` of the Go code (`fmod`
is exact; `Mod(±Inf, 0.25)` is NaN, hence false).
`isQuarterF_iff` below proves the rational characterisation. -/
def isQuarterF : GoFloat → Bool
  | .finite _ m k =>
    if 0 ≤ k + 2 then true
    else decide (m % 2 ^ (-(k + 2)).toNat = 0)
  | .inf _ => false

/-- Embeds Go `isMultipleOfQuarter`: any `ParseFloat` error (syntax or
range) makes the rule not apply; otherwise test the parsed float64. -/
def isMultipleOfQuarter (total : String) : Bool :=
  match parsePrice total with
  | none => false
  | some (_, true) => false
  | some (f, false) => isQuarterF f

/-- The strings on which the float64 model is bit-faithful to
`ParseFloat`: plain decimal material only — no hex-float (`x`/`p`),
underscore, or `inf`/`nan` letters. -/
def plainDecimalForm (s : String) : Bool :=
  s.toList.all fun c =>
    c.isDigit || c = '.' || c = '+' || c = '-' || c = 'e' || c = 'E'

/-- Embeds Go `getAlphanumericString`: the regexp `[^a-zA-Z0-9]` is
replaced by the empty string, keeping exactly the ASCII letters and
digits. -/
def getAlphanumericString (s : String) : String :=
  ⟨s.toList.filter fun c => c.isAlpha || c.isDigit⟩

/-- Embeds Go `isRoundDollar`: `strings.HasSuffix(total, ".00")`, a
literal byte-suffix check (the suffix is ASCII, so character-level
suffix coincides with byte-level suffix). -/
def isRoundDollar (total : String) : Bool :=
  ".00".toList.isSuffixOf total.toList

/-- The characters of Go `unicode.IsSpace` (the Unicode `White_Space`
property): U+0009–U+000D, space, U+0085, U+00A0, U+1680, U+2000–U+200A,
U+2028, U+2029, U+202F, U+205F, U+3000. -/
def goIsSpace (c : Char) : Bool :=
  c = ' ' || c = '\t' || c = '\n' || c = '\x0B' || c = '\x0C' || c = '\r' ||
    c = '\x85' || c = '\xA0' || c = '\u1680' ||
    ('\u2000' ≤ c && c ≤ '\u200A') ||
    c = '\u2028' || c = '\u2029' || c = '\u202F' || c = '\u205F' || c = '\u3000'

/-- Embeds Go `strings.TrimSpace`: drop leading and trailing whitespace
characters. -/
def trimSpace (s : String) : List Char :=
  ((s.toList.dropWhile goIsSpace).reverse.dropWhile goIsSpace).reverse

/-- Go `len` of the UTF-8 encoding of a character list. -/
def utf8Len (cs : List Char) : Nat :=
  cs.foldl (fun n c => n + c.utf8Size) 0

/-- How many days the given month of the given year has (Gregorian). -/
def daysInMonth (y m : Nat) : Nat :=
  if m = 2 then
    if y % 4 = 0 ∧ (y % 100 ≠ 0 ∨ y % 400 = 0) then 29 else 28
  else if m = 4 ∨ m = 6 ∨ m = 9 ∨ m = 11 then 30
  else 31

/-- Embeds `time.Parse("2006-01-02", date)`: a 4-digit year, 2-digit
month in 1..12 and 2-digit day valid for that month, tied together by
literal dashes; anything else is a parse error. -/
def parseDate (date : String) : Option (Nat × Nat × Nat) :=
  match date.toList with
  | [y1, y2, y3, y4, '-', m1, m2, '-', d1, d2] =>
    if ([y1, y2, y3, y4, m1, m2, d1, d2].all Char.isDigit) then
      let y := digitsVal [y1, y2, y3, y4]
      let m := digitsVal [m1, m2]
      let d := digitsVal [d1, d2]
      if 1 ≤ m ∧ m ≤ 12 ∧ 1 ≤ d ∧ d ≤ daysInMonth y m then some (y, m, d)
      else none
    else none
  | _ => none

/-- Embeds Go `isOddDay`: parse the date; on failure the rule does not
apply, otherwise test whether the day component is odd. -/
def isOddDay (date : String) : Bool :=
  match parseDate date with
  | none => false
  | some (_, _, d) => d % 2 != 0

/-- Embeds `time.Parse("15:04", timeStr)`: an hour of one or two digits
(at most 23), a literal colon, and exactly two minute digits (at most
59), consuming the whole string. -/
def parseTime (timeStr : String) : Option (Nat × Nat) :=
  match timeStr.toList with
  | [h1, h2, ':', m1, m2] =>
    if ([h1, h2, m1, m2].all Char.isDigit) then
      let h := digitsVal [h1, h2]
      let m := digitsVal [m1, m2]
      if h ≤ 23 ∧ m ≤ 59 then some (h, m) else none
    else none
  | [h1, ':', m1, m2] =>
    if ([h1, m1, m2].all Char.isDigit) then
      let h := digitsVal [h1]
      let m := digitsVal [m1, m2]
      if h ≤ 23 ∧ m ≤ 59 then some (h, m) else none
    else none
  | _ => none

/-- Embeds Go `isBetween2And4PM`: parse the time; on failure the rule
does not apply, otherwise test `hour >= 14 && hour < 16`. -/
def isBetween2And4PM (timeStr : String) : Bool :=
  match parseTime timeStr with
  | none => false
  | some (h, _) => decide (14 ≤ h ∧ h < 16)

/-- Rule 1 contribution: length (in bytes, equal to character count for
the all-ASCII filtered string) of the alphanumeric-only retailer name. -/
def retailerPoints (retailer : String) : Int :=
  ((getAlphanumericString retailer).length : Int)

/-- Rule 2 contribution: 50 points if the total is a round dollar
amount. -/
def roundDollarPoints (total : String) : Int :=
  if isRoundDollar total then 50 else 0

/-- Rule 3 contribution: 25 points if the total is a multiple of 0.25. -/
def quarterPoints (total : String) : Int :=
  if isMultipleOfQuarter total then 25 else 0

/-- Rule 4 contribution: 5 points for every 2 items (integer division). -/
def pairPoints (items : List Item) : Int :=
  (((items.length / 2) * 5 : Nat) : Int)

/-- The float64 price of an item as rule 5 sees it: Go discards the
`ParseFloat` error, so a syntax failure leaves the zero value, while a
range failure leaves the returned `±Inf` or rounded tiny value. -/
def priceFloatOf (item : Item) : GoFloat :=
  match parsePrice item.Price with
  | none => .finite false 0 0
  | some (f, _) => f

/-- Rule 5 contribution of one item: if the trimmed description length
is a multiple of 3, `int64(math.Ceil(price * 0.2))` computed in
float64. -/
def itemPoints (item : Item) : Int :=
  if utf8Len (trimSpace item.ShortDescription) % 3 = 0 then
    int64OfCeil (floatCeilInt (floatMul (priceFloatOf item) point2Float))
  else 0

/-- Rule 5 contribution: sum of the per-item contributions, in item
order. -/
def descPoints (items : List Item) : Int :=
  (items.map itemPoints).sum

/-- Rule 6 contribution: 6 points if the purchase day is odd. -/
def oddDayPoints (date : String) : Int :=
  if isOddDay date then 6 else 0

/-- Rule 7 contribution: 10 points if the purchase time is between
2:00 PM and 4:00 PM. -/
def timePoints (timeStr : String) : Int :=
  if isBetween2And4PM timeStr then 10 else 0

/-- Reduction of an integer into int64, as Go's wrapping `int64`
addition produces (wrapping each `+=` is the same as wrapping the final
sum). -/
def wrap64 (x : Int) : Int :=
  (x + 2 ^ 63) % 2 ^ 64 - 2 ^ 63

/-- Embeds Go `calculatePoints`: the int64 sum of the seven rule
contributions, in the order of the source. -/
def calculatePoints (receipt : Receipt) : Int :=
  wrap64
    (retailerPoints receipt.Retailer
      + roundDollarPoints receipt.Total
      + quarterPoints receipt.Total
      + pairPoints receipt.Items
      + descPoints receipt.Items
      + oddDayPoints receipt.PurchaseDate
      + timePoints receipt.PurchaseTime)

/-- The in-memory receipt store (`receiptStore`), modelled as an
association list from identifiers to receipts. -/
abbrev Store := List (String × Receipt)

/-- Embeds the Go handler `GetPoints`, with the store state passed
explicitly: look up the receipt by id (a missing id answers "not
found", modelled as `none`), compute the points, and return the store,
which the handler never writes. -/
def GetPoints (store : Store) (id : String) : Option Int × Store :=
  match store.lookup id with
  | none => (none, store)
  | some receipt => (some (calculatePoints receipt), store)

/-- The classic end-to-end example receipt of the specification. -/
def targetReceipt : Receipt where
  Retailer := "Target"
  PurchaseDate := "2022-01-01"
  PurchaseTime := "13:01"
  Items :=
    [⟨"Mountain Dew 12PK", "6.49"⟩,
     ⟨"Emils Cheese Pizza", "12.25"⟩,
     ⟨"Knorr Creamy Chicken", "1.26"⟩,
     ⟨"Doritos Nacho Cheese", "3.35"⟩,
     ⟨"   Klarbrunn 12-PK 12 FL OZ  ", "12.00"⟩]
  Total := "35.35"

/-- A receipt with a negative item price: its single item has an empty
description (trimmed length 0, a multiple of 3) and price "-100.00". -/
def negativePriceReceipt : Receipt where
  Retailer := ""
  PurchaseDate := ""
  PurchaseTime := ""
  Items := [⟨"", "-100.00"⟩]
  Total := ""

/-- A one-entry receipt store holding the example receipt. -/
def sampleStore : Store := [("r1", targetReceipt)]

/-! ### Bridging lemmas between the executable integer arithmetic and
the rational semantics. -/

lemma ceilDiv_eq_ceil (a : Int) (d : Nat) : ceilDiv a d = ⌈(a : ℚ) / (d : ℚ)⌉ := by
  have h : ((a : ℚ) / (d : ℚ)) = -(((-a : ℤ) : ℚ) / (d : ℚ)) := by push_cast; ring
  rw [ceilDiv, h, Int.ceil_neg, Rat.floor_intCast_div_natCast]

lemma toRat_of_nonneg_exp {d : Dec} (h : 0 ≤ d.exp) :
    d.toRat = ((d.num * 10 ^ d.exp.toNat : ℤ) : ℚ) := by
  obtain ⟨n, hn⟩ : ∃ n : ℕ, d.exp = (n : ℤ) := ⟨d.exp.toNat, by omega⟩
  unfold Dec.toRat
  rw [hn, Int.toNat_natCast, zpow_natCast]
  push_cast; ring

lemma toRat_of_neg_exp {d : Dec} (h : ¬ 0 ≤ d.exp) :
    d.toRat = (d.num : ℚ) / ((10 : ℚ) ^ (-d.exp).toNat) := by
  obtain ⟨n, hn⟩ : ∃ n : ℕ, d.exp = -(n : ℤ) := ⟨(-d.exp).toNat, by omega⟩
  unfold Dec.toRat
  rw [hn]
  simp only [neg_neg, Int.toNat_natCast, zpow_neg, zpow_natCast]
  rw [div_eq_mul_inv]

lemma toRatF_of_nonneg_exp (s : Bool) (m : Nat) (k : Int) (h : 0 ≤ k) :
    (GoFloat.finite s m k).toRat =
      (if s then -(((m * 2 ^ k.toNat : Nat) : ℚ)) else ((m * 2 ^ k.toNat : Nat) : ℚ)) := by
  obtain ⟨n, hn⟩ : ∃ n : ℕ, k = (n : ℤ) := ⟨k.toNat, by omega⟩
  subst hn
  simp only [GoFloat.toRat, Int.toNat_natCast, zpow_natCast]
  cases s with
  | false =>
    rw [if_neg (by simp : ¬ (false = true)), if_neg (by simp : ¬ (false = true))]
    push_cast; ring
  | true =>
    rw [if_pos rfl, if_pos rfl]
    push_cast; ring

lemma toRatF_of_neg_exp (s : Bool) (m : Nat) (k : Int) (h : ¬ 0 ≤ k) :
    (GoFloat.finite s m k).toRat =
      (if s then -((m : ℚ) / (2 : ℚ) ^ (-k).toNat)
       else (m : ℚ) / (2 : ℚ) ^ (-k).toNat) := by
  obtain ⟨n, hn⟩ : ∃ n : ℕ, k = -(n : ℤ) := ⟨(-k).toNat, by omega⟩
  subst hn
  simp only [GoFloat.toRat, neg_neg, Int.toNat_natCast, zpow_neg, zpow_natCast]
  cases s <;> simp [div_eq_mul_inv]

lemma pow2_quarter_core (m : Nat) (k : Int) :
    (if 0 ≤ k + 2 then true else decide (m % 2 ^ (-(k + 2)).toNat = 0)) = true ↔
      ∃ j : Int, (m : ℚ) * (2 : ℚ) ^ k = (j : ℚ) * (1 / 4) := by
  by_cases h : 0 ≤ k + 2
  · simp only [if_pos h, true_iff]
    obtain ⟨n, hn⟩ : ∃ n : ℕ, k = (n : ℤ) - 2 := ⟨(k + 2).toNat, by omega⟩
    subst hn
    refine ⟨m * 2 ^ n, ?_⟩
    rw [zpow_sub₀ (by norm_num : (2 : ℚ) ≠ 0), zpow_natCast]
    push_cast
    ring
  · simp only [if_neg h, decide_eq_true_eq]
    obtain ⟨K, hK⟩ : ∃ K : ℕ, k = -(K : ℤ) - 2 := ⟨(-(k + 2)).toNat, by omega⟩
    subst hK
    have hKt : (-((-(K : ℤ) - 2) + 2)).toNat = K := by omega
    rw [hKt]
    have h2K : ((2 : ℚ) ^ K) ≠ 0 := by positivity
    have hzp : (2 : ℚ) ^ (-(K : ℤ) - 2) = ((2 : ℚ) ^ K)⁻¹ / 4 := by
      rw [zpow_sub₀ (by norm_num : (2 : ℚ) ≠ 0), zpow_neg, zpow_natCast]
      norm_num
    rw [hzp]
    constructor
    · intro hmod
      obtain ⟨c, hc⟩ := Nat.dvd_iff_mod_eq_zero.2 hmod
      refine ⟨c, ?_⟩
      subst hc
      push_cast
      field_simp
      ring
    · rintro ⟨j, hj⟩
      have hm : (m : ℚ) = (j : ℚ) * 2 ^ K := by
        field_simp at hj
        linarith
      have hZ : (m : ℤ) = j * 2 ^ K := by exact_mod_cast hm
      have hdvd : (2 : ℕ) ^ K ∣ m := by
        have : ((2 ^ K : ℕ) : ℤ) ∣ (m : ℤ) := ⟨j, by push_cast; linarith⟩
        exact_mod_cast this
      exact Nat.dvd_iff_mod_eq_zero.1 hdvd

lemma isQuarterF_iff (s : Bool) (m : Nat) (k : Int) :
    isQuarterF (.finite s m k) = true ↔
      ∃ j : Int, (GoFloat.finite s m k).toRat = (j : ℚ) * (1 / 4) := by
  have core := pow2_quarter_core m k
  have hq : isQuarterF (GoFloat.finite s m k) =
      (if 0 ≤ k + 2 then true else decide (m % 2 ^ (-(k + 2)).toNat = 0)) := rfl
  cases s with
  | false =>
    rw [hq, core]
    constructor <;>
      (rintro ⟨j, hj⟩; refine ⟨j, ?_⟩; simpa [GoFloat.toRat] using hj)
  | true =>
    rw [hq, core]
    constructor
    · rintro ⟨j, hj⟩
      refine ⟨-j, ?_⟩
      simp only [GoFloat.toRat, if_true]
      push_cast
      linarith
    · rintro ⟨j, hj⟩
      refine ⟨-j, ?_⟩
      simp only [GoFloat.toRat, if_true] at hj
      push_cast at hj ⊢
      linarith

lemma floatCeilInt_eq {g : GoFloat} {c : Int} (h : floatCeilInt g = some c) :
    c = ⌈g.toRat⌉ := by
  cases g with
  | inf s => simp [floatCeilInt] at h
  | finite s m k =>
    simp only [floatCeilInt] at h
    by_cases hk : 0 ≤ k
    · rw [if_pos hk] at h
      rw [toRatF_of_nonneg_exp s m k hk]
      cases s with
      | false =>
        simp only [Option.some_inj] at h
        subst h
        rw [if_neg (by simp : ¬ (false = true))]
        exact (Int.ceil_natCast _).symm
      | true =>
        simp only [Option.some_inj] at h
        subst h
        rw [if_pos rfl, Int.ceil_neg, Int.floor_natCast]
        simp
    · rw [if_neg hk] at h
      rw [toRatF_of_neg_exp s m k hk]
      cases s with
      | false =>
        rw [if_neg (by simp : ¬ (false = true))] at h
        simp only [Option.some_inj] at h
        subst h
        rw [if_neg (by simp : ¬ (false = true)), ceilDiv_eq_ceil]
        congr 1
        push_cast
        ring
      | true =>
        rw [if_pos rfl] at h
        simp only [Option.some_inj] at h
        subst h
        rw [if_pos rfl, Int.ceil_neg]
        congr 1
        rw [show ((2 : ℚ) ^ (-k).toNat) = ((2 ^ (-k).toNat : ℕ) : ℚ) by push_cast; ring]
        exact (Rat.floor_natCast_div_natCast _ _).symm

lemma priceFloatOf_eq {item : Item} {f : GoFloat} {e : Bool}
    (h : parsePrice item.Price = some (f, e)) : priceFloatOf item = f := by
  unfold priceFloatOf
  rw [h]

lemma isRoundDollar_iff (t : String) :
    isRoundDollar t = true ↔ ".00".toList <:+ t.toList := by
  unfold isRoundDollar
  exact List.isSuffixOf_iff_suffix

lemma isBetween_iff (s : String) :
    isBetween2And4PM s = true ↔
      ∃ h m, parseTime s = some (h, m) ∧ 14 ≤ h ∧ h < 16 := by
  unfold isBetween2And4PM
  cases ht : parseTime s with
  | none => simp
  | some hm =>
    obtain ⟨h, m⟩ := hm
    simp


/-! ### The claims -/

lemma toRatF_neg_sign_nonpos (m : Nat) (k : Int) :
    (GoFloat.finite true m k).toRat ≤ 0 := by
  have h : (GoFloat.finite true m k).toRat = -(m : ℚ) * (2 : ℚ) ^ k := by
    simp [GoFloat.toRat]
  rw [h]
  have h2 : (0 : ℚ) < (2 : ℚ) ^ k := zpow_pos (by norm_num) _
  have hm : (0 : ℚ) ≤ (m : ℚ) := by positivity
  nlinarith

/-- Claim C1: for the classic end-to-end example receipt — retailer
"Target", purchaseDate "2022-01-01", purchaseTime "13:01", the five
listed items with prices "6.49", "12.25", "1.26", "3.35", "12.00", and
total "35.35" — `calculatePoints` returns exactly 28 (evaluated through
the float64-faithful model: every multiplication and rounding step
agrees with the Go execution at these inputs). -/
theorem calculatePoints_targetReceipt : calculatePoints targetReceipt = 28 := by
  decide

/-- Claim C2: the specification promises a non-negative integer for
every receipt, but the code breaks the promise: on the concrete receipt
whose single item has an empty description (trimmed length 0, a
multiple of 3) and the price string "-100.00", rule 5 adds
`int64(math.Ceil(-100 * 0.2)) = -20` and every other rule adds 0, so
`calculatePoints` returns -20 < 0.  (Out-of-range prices break it a
second way: `int64` conversion of a huge `Ceil` result is
implementation-defined and negative on amd64.) -/
theorem calculatePoints_can_be_negative :
    calculatePoints negativePriceReceipt < 0 := by
  decide

/-- Claim C3: `calculatePoints` always returns a value (the embedding
is a total function), and each rule whose field fails to parse
contributes exactly zero points: an unparseable total contributes 0
from the quarter-multiple rule, an unparseable date 0 from the odd-day
rule, an unparseable time 0 from the afternoon rule, and an item with
an unparseable price 0 from the description-length rule (Go discards
the error and keeps the zero value, and `ceil(0 * 0.2) = 0`). -/
theorem parseFailure_contributes_zero :
    (∀ r : Receipt, ∃ n : Int, calculatePoints r = n) ∧
    (∀ total, parsePrice total = none → quarterPoints total = 0) ∧
    (∀ date, parseDate date = none → oddDayPoints date = 0) ∧
    (∀ timeStr, parseTime timeStr = none → timePoints timeStr = 0) ∧
    (∀ item : Item, parsePrice item.Price = none → itemPoints item = 0) := by
  refine ⟨fun r => ⟨_, rfl⟩, ?_, ?_, ?_, ?_⟩
  · intro t ht
    have hq : isMultipleOfQuarter t = false := by
      unfold isMultipleOfQuarter; rw [ht]
    simp [quarterPoints, hq]
  · intro d hd
    have ho : isOddDay d = false := by
      unfold isOddDay; rw [hd]
    simp [oddDayPoints, ho]
  · intro s hs
    have hb : isBetween2And4PM s = false := by
      unfold isBetween2And4PM; rw [hs]
    simp [timePoints, hb]
  · intro item hitem
    unfold itemPoints priceFloatOf
    rw [hitem]
    split
    · decide
    · rfl

/-- Witness for claim C3, at concrete unparseable fields. -/
theorem parseFailure_contributes_zero_witness :
    quarterPoints "abc" = 0 ∧ oddDayPoints "2023-02-29" = 0 ∧
    timePoints "25:00" = 0 ∧ itemPoints ⟨"abc", "x"⟩ = 0 :=
  ⟨parseFailure_contributes_zero.2.1 "abc" (by decide),
   parseFailure_contributes_zero.2.2.1 "2023-02-29" (by decide),
   parseFailure_contributes_zero.2.2.2.1 "25:00" (by decide),
   parseFailure_contributes_zero.2.2.2.2 ⟨"abc", "x"⟩ (by decide)⟩

/-- Claim C4: rule R2 contributes exactly 50 points iff the total
string literally ends with the suffix ".00"; the numerically round but
textually different total "10.0" contributes 0. -/
theorem roundDollar_iff_suffix :
    (∀ total, roundDollarPoints total = 50 ↔ ".00".toList <:+ total.toList) ∧
    roundDollarPoints "10.0" = 0 := by
  refine ⟨?_, by decide⟩
  intro t
  rw [← isRoundDollar_iff]
  unfold roundDollarPoints
  constructor
  · intro h50
    by_cases hb : isRoundDollar t
    · exact hb
    · simp [hb] at h50
  · intro hb
    simp [hb]

/-- Claim C5, counterexample: the claim as stated — 25 points iff the
total parses as a decimal whose (exact) value is a multiple of 0.25 —
fails at the total "1e999": its exact decimal value 10^999 is a
multiple of 0.25, but `ParseFloat` overflows to `+Inf` with `ErrRange`,
so the code awards 0 points from rule R3. -/
theorem quarterPoints_range_cex :
    quarterPoints "1e999" = 0 ∧
    ∃ d, decimalValue "1e999" = some d ∧ ∃ k : ℤ, d.toRat = (k : ℚ) * (1 / 4) :=
  ⟨by decide,
   ⟨⟨1, 999⟩, by decide,
    ⟨4 * 10 ^ 999, by
      have h : (Dec.mk 1 999).toRat = ((1 * 10 ^ 999 : ℤ) : ℚ) :=
        toRat_of_nonneg_exp (by decide)
      rw [h]
      push_cast
      ring⟩⟩⟩

/-- Claim C5, amended: for totals in plain decimal form (Go's
additional hex-float/underscore/`inf`/`nan` spellings are outside the
model), rule R3 contributes exactly 25 points iff the total parses
without a range error and the parsed (float64-rounded) value is an
exact integer multiple of 1/4.  "9.00" earns 50 + 25 = 75 from rules
R2 and R3 combined, "35.35" earns 0 from them;
"0.2500000000000000000001" rounds to the float64 0.25 and earns the 25
(the exact-value reading would give 0); syntactically unparseable
totals contribute 0 and no error. -/
theorem quarterPoints_iff_multiple :
    (∀ total, plainDecimalForm total = true →
        (quarterPoints total = 25 ↔
          ∃ f, parsePrice total = some (f, false) ∧ f.isFinite = true ∧
            ∃ k : ℤ, f.toRat = (k : ℚ) * (1 / 4))) ∧
    roundDollarPoints "9.00" + quarterPoints "9.00" = 75 ∧
    roundDollarPoints "35.35" + quarterPoints "35.35" = 0 ∧
    quarterPoints "0.2500000000000000000001" = 25 ∧
    (∀ total, parsePrice total = none → quarterPoints total = 0) := by
  refine ⟨?_, by decide, by decide, by decide, ?_⟩
  · intro t _
    constructor
    · intro h25
      have hm : isMultipleOfQuarter t = true := by
        by_contra hb
        rw [Bool.not_eq_true] at hb
        simp [quarterPoints, hb] at h25
      unfold isMultipleOfQuarter at hm
      cases hp : parsePrice t with
      | none => rw [hp] at hm; simp at hm
      | some pr =>
        obtain ⟨f, err⟩ := pr
        rw [hp] at hm
        cases err with
        | false =>
          cases f with
          | finite s m k =>
            exact ⟨.finite s m k, rfl, rfl, (isQuarterF_iff s m k).1 hm⟩
          | inf s => simp [isQuarterF] at hm
        | true => simp at hm
    · rintro ⟨f, hp, hfin, j, hj⟩
      cases f with
      | inf s => simp [GoFloat.isFinite] at hfin
      | finite s m k =>
        have hb : isQuarterF (.finite s m k) = true :=
          (isQuarterF_iff s m k).2 ⟨j, hj⟩
        have hm : isMultipleOfQuarter t = true := by
          unfold isMultipleOfQuarter
          rw [hp]
          exact hb
        simp [quarterPoints, hm]
  · intro t ht
    have hq : isMultipleOfQuarter t = false := by
      unfold isMultipleOfQuarter; rw [ht]
    simp [quarterPoints, hq]

/-- Witness for the amended claim C5, at "9.00" (plain decimal form)
and at an unparseable total. -/
theorem quarterPoints_iff_multiple_witness :
    (quarterPoints "9.00" = 25 ↔
      ∃ f, parsePrice "9.00" = some (f, false) ∧ f.isFinite = true ∧
        ∃ k : ℤ, f.toRat = (k : ℚ) * (1 / 4)) ∧
    quarterPoints "zz" = 0 :=
  ⟨quarterPoints_iff_multiple.1 "9.00" (by decide),
   quarterPoints_iff_multiple.2.2.2.2 "zz" (by decide)⟩

/-- Claim C6, counterexample: the claim as stated — the qualifying
item adds the exact `ceil(price * 0.2)` of the decimal price — fails at
the price "25.000000000000000001": its exact reading gives
`ceil(5.0000000000000000002) = 6`, but the string parses to the float64
25.0 exactly, the float64 product with 0.2 rounds to 5.0, and the code
adds 5. -/
theorem itemPoints_float_cex :
    itemPoints ⟨"abc", "25.000000000000000001"⟩ = 5 ∧
    ∃ d, decimalValue "25.000000000000000001" = some d ∧
      ⌈d.toRat * (1 / 5 : ℚ)⌉ = 6 :=
  ⟨by decide,
   ⟨⟨25000000000000000001, -18⟩, by decide, by
      have h : (Dec.mk 25000000000000000001 (-18)).toRat =
          ((25000000000000000001 : ℤ) : ℚ) / ((10 : ℚ) ^ (18 : ℕ)) :=
        toRat_of_neg_exp (by decide)
      rw [h]
      have h2 : ((25000000000000000001 : ℤ) : ℚ) / ((10 : ℚ) ^ (18 : ℕ)) * (1 / 5) =
          ((25000000000000000001 : ℤ) : ℚ) / ((5000000000000000000 : ℕ) : ℚ) := by
        rw [mul_one_div, div_div]
        norm_num
      rw [h2, ← ceilDiv_eq_ceil]
      decide⟩⟩

/-- Claim C6, amended: rule R5 per item — when the price parses, the
item adds `int64(math.Ceil(price * 0.2))` computed in float64
arithmetic exactly when the trimmed description length is a multiple of
3 (including length 0): the added value is the exact integer ceiling of
the correctly rounded float64 product of the parsed price with the
float64 constant nearest 0.2, provided that ceiling lies in int64 range
(outside it the conversion is implementation-defined).  Items whose
trimmed length is not a multiple of 3 add nothing.  The claim's
arithmetic holds exactly: `ceil(12.25 * 0.2) = 3` and
`ceil(3.00 * 0.2) = 1`, in exact arithmetic and, as the last two
conjuncts evaluate, in the float64 computation as well. -/
theorem itemPoints_characterization :
    (∀ (item : Item) (f : GoFloat) (e : Bool) (c : ℤ),
        parsePrice item.Price = some (f, e) →
        floatCeilInt (floatMul f point2Float) = some c →
        -(2 ^ 63) ≤ c → c < 2 ^ 63 →
        itemPoints item =
          if utf8Len (trimSpace item.ShortDescription) % 3 = 0 then c else 0) ∧
    (∀ (g : GoFloat) (c : ℤ), floatCeilInt g = some c → c = ⌈g.toRat⌉) ∧
    (∀ item : Item,
        utf8Len (trimSpace item.ShortDescription) % 3 ≠ 0 → itemPoints item = 0) ∧
    (⌈(1225 / 100 : ℚ) * (1 / 5)⌉ : ℤ) = 3 ∧
    (⌈(300 / 100 : ℚ) * (1 / 5)⌉ : ℤ) = 1 ∧
    itemPoints ⟨"Emils Cheese Pizza", "12.25"⟩ = 3 ∧
    itemPoints ⟨"PAD", "3.00"⟩ = 1 := by
  refine ⟨?_, fun g c h => floatCeilInt_eq h, ?_, ?_, ?_, by decide, by decide⟩
  · intro item f e c hp hc hlo hhi
    have hpf : priceFloatOf item = f := priceFloatOf_eq hp
    have h64 : int64OfCeil (floatCeilInt (floatMul f point2Float)) = c := by
      rw [hc]
      simp only [int64OfCeil]
      rw [if_pos ⟨hlo, hhi⟩]
    unfold itemPoints
    rw [hpf, h64]
  · intro item h
    unfold itemPoints
    rw [if_neg h]
  · have h : (1225 / 100 : ℚ) * (1 / 5) = ((49 : ℤ) : ℚ) / ((20 : ℕ) : ℚ) := by
      norm_num
    rw [h, ← ceilDiv_eq_ceil]
    decide
  · have h : (300 / 100 : ℚ) * (1 / 5) = ((3 : ℤ) : ℚ) / ((5 : ℕ) : ℚ) := by
      norm_num
    rw [h, ← ceilDiv_eq_ceil]
    decide

/-- Witness for the amended claim C6, at the "Emils Cheese Pizza"
item (trimmed length 18, price 12.25 = float64
`6896136929411072 * 2^-49`, ceiling 3) and the "Mountain Dew 12PK" item
(trimmed length 17, not a multiple of 3). -/
theorem itemPoints_characterization_witness :
    parsePrice "12.25" = some (.finite false 6896136929411072 (-49), false) ∧
    itemPoints ⟨"Emils Cheese Pizza", "12.25"⟩ =
      (if utf8Len (trimSpace "Emils Cheese Pizza") % 3 = 0 then (3 : ℤ) else 0) ∧
    itemPoints ⟨"Mountain Dew 12PK", "6.49"⟩ = 0 :=
  ⟨by decide,
   itemPoints_characterization.1 ⟨"Emils Cheese Pizza", "12.25"⟩
     (.finite false 6896136929411072 (-49)) false 3 (by decide) (by decide)
     (by decide) (by decide),
   itemPoints_characterization.2.2.1 ⟨"Mountain Dew 12PK", "6.49"⟩ (by decide)⟩

/-- Claim C7: rule R7 contributes exactly 10 points iff the purchase
time parses in 24-hour "HH:MM" form with an hour at least 14 and
strictly below 16; "14:33" earns 10, while "16:00" and "13:59"
earn 0. -/
theorem timePoints_iff_afternoon :
    (∀ s, timePoints s = 10 ↔
        ∃ h m, parseTime s = some (h, m) ∧ 14 ≤ h ∧ h < 16) ∧
    timePoints "14:33" = 10 ∧ timePoints "16:00" = 0 ∧
    timePoints "13:59" = 0 := by
  refine ⟨?_, by decide, by decide, by decide⟩
  intro s
  rw [← isBetween_iff]
  unfold timePoints
  constructor
  · intro h10
    by_cases hb : isBetween2And4PM s
    · exact hb
    · simp [hb] at h10
  · intro hb
    simp [hb]

/-- Claim C8: `calculatePoints` is deterministic — two calls on equal
`Receipt` values (same retailer, dates, times, items and total) return
the same integer. -/
theorem calculatePoints_deterministic (r₁ r₂ : Receipt) (h : r₁ = r₂) :
    calculatePoints r₁ = calculatePoints r₂ := by
  rw [h]

/-- Witness for claim C8, at the example receipt. -/
theorem calculatePoints_deterministic_witness :
    calculatePoints targetReceipt = calculatePoints targetReceipt :=
  calculatePoints_deterministic targetReceipt targetReceipt rfl

/-- Claim C9: scoring has no side effects — serving a points request
leaves the receipt store unchanged, and the answer for a stored receipt
is exactly `calculatePoints` of the stored (unmodified) `Receipt`
value, of which the computation only reads the fields. -/
theorem getPoints_preserves_store (store : Store) (id : String) :
    (GetPoints store id).2 = store ∧
    ∀ r, store.lookup id = some r →
      (GetPoints store id).1 = some (calculatePoints r) := by
  constructor
  · unfold GetPoints
    cases store.lookup id <;> rfl
  · intro r hr
    unfold GetPoints
    rw [hr]

/-- Witness for claim C9, at a one-entry store. -/
theorem getPoints_preserves_store_witness :
    (GetPoints sampleStore "r1").2 = sampleStore ∧
    (GetPoints sampleStore "r1").1 = some (calculatePoints targetReceipt) :=
  ⟨(getPoints_preserves_store sampleStore "r1").1,
   (getPoints_preserves_store sampleStore "r1").2 targetReceipt (by decide)⟩

/-- Claim C10: the quarter-multiple rule imposes no positivity
requirement — a total that parses (finite, no range error) to a value
that is at most zero and is an exact multiple of 1/4 (such as "0",
"0.00" or "-0.25") still earns the 25 points. -/
theorem quarterPoints_no_positivity (total : String) (f : GoFloat)
    (hp : parsePrice total = some (f, false)) (hfin : f.isFinite = true)
    (hle : f.toRat ≤ 0) (hq : ∃ k : ℤ, f.toRat = (k : ℚ) * (1 / 4)) :
    quarterPoints total = 25 := by
  cases f with
  | inf s => simp [GoFloat.isFinite] at hfin
  | finite s m k =>
    have hb : isQuarterF (.finite s m k) = true := (isQuarterF_iff s m k).2 hq
    have hm : isMultipleOfQuarter total = true := by
      unfold isMultipleOfQuarter
      rw [hp]
      exact hb
    simp [quarterPoints, hm]

/-- Witness for claim C10, at the total "-0.25" (float64 value -1/4,
at most zero). -/
theorem quarterPoints_no_positivity_witness : quarterPoints "-0.25" = 25 :=
  quarterPoints_no_positivity "-0.25" (.finite true 4503599627370496 (-54))
    (by decide) (by decide) (toRatF_neg_sign_nonpos _ _)
    ((isQuarterF_iff true 4503599627370496 (-54)).1 (by decide))


end ReceiptProcessor
